import Mathlib

/-!
Shallow embedding of the `link` packet-framing package (`src/protocol.go`).

The model follows the Go source line by line:

* `Buffer` (defined in the repository outside the protocol file, and used in
  `protocol.go` only through its `Data []byte` field) is a backing store plus
  a logical length; `data` is the visible slice `store.take len` and `cap`
  is the backing capacity.
* Go byte slices become `List Nat` with each entry a byte value; Go's
  `int` is modelled as `Int` where a signed reinterpretation matters
  (`decodeHead` for `n = 8` applies `int(uint64 v)`) and as `Nat` where the
  Go value is provably non-negative.
* Operations that can panic at runtime (out-of-range slicing, negative
  slice bounds, `make` with `len > cap`) return a distinguished `fault`
  outcome instead of a value.
* The byte transport is a pure byte list: the reader side consumes a prefix
  of the list (with `io.ReadFull` semantics: fewer bytes than requested is
  an `unexpectedEOF` error), and the writer side returns the emitted bytes.
-/

namespace Link

/-- Byte order used by the header codec (mirrors `binary.BigEndian` /
`binary.LittleEndian` from `encoding/binary`). -/
inductive ByteOrder where
  | big : ByteOrder
  | little : ByteOrder
deriving DecidableEq, Repr

/-- Modelled from the spec: the `Buffer` type lives in a repository file that
is not part of `src/`; `protocol.go` accesses it only through its `Data`
byte-slice field, so the model is a backing store (the full backing array,
whose length is the Go capacity) plus the logical length of the visible
slice. -/
structure Buffer where
  store : List Nat
  len : Nat
deriving DecidableEq, Repr

/-- Go expression `cap(buffer.Data)`: length of the backing array. -/
def Buffer.cap (b : Buffer) : Nat := b.store.length

/-- Go expression `buffer.Data` as a value: the visible bytes of the slice. -/
def Buffer.data (b : Buffer) : List Nat := b.store.take b.len

/-- The empty buffer a caller starts with. -/
def Buffer.empty : Buffer := ⟨[], 0⟩

/-- Modelled from the spec: the `Message` interface lives in a repository
file outside `src/`; per the spec it exposes `recommendBufferSize()` (a
non-negative pre-sizing hint) and `writeBuffer(buffer)` (appends the payload
after the reserved header; `none` models a serialization error). -/
structure Message where
  recommendBufferSize : Nat
  writeBuffer : Buffer → Option Buffer

/-- Error sentinels surfaced by the protocol. `packetTooLarge` models the
shared `PacketTooLargeError` sentinel (declared in the repository outside
`src/`, returned by both `Write` and `Read`); `unexpectedEOF` models the
error from `io.ReadFull` when the stream ends before the requested count. -/
inductive Err where
  | packetTooLarge : Err
  | unexpectedEOF : Err
deriving DecidableEq, Repr

/-- The `SimpleProtocol` record: header width `n`, byte order, and the
`MaxPacketSize` field (0 = unlimited). The `head` scratch slice and the two
closures of the Go struct are resolved functionally from `n` and `bo`. -/
structure SimpleProtocol where
  n : Nat
  bo : ByteOrder
  MaxPacketSize : Nat
deriving DecidableEq, Repr

/-- Big-endian bytes of `v`, `k` bytes wide (mirrors `PutUintN` under
`binary.BigEndian`; the written bytes represent `v mod 2^(8k)`). -/
def beBytes : Nat → Nat → List Nat
  | 0, _ => []
  | k + 1, v => beBytes k (v / 256) ++ [v % 256]

/-- Little-endian bytes of `v`, `k` bytes wide (mirrors `PutUintN` under
`binary.LittleEndian`). -/
def leBytes : Nat → Nat → List Nat
  | 0, _ => []
  | k + 1, v => v % 256 :: leBytes k (v / 256)

/-- Header bytes for value `v` at width `k` under byte order `bo`. For
`k = 1` the Go code writes the single byte `byte(v)` directly, on which
both branches here agree. -/
def encBytes (bo : ByteOrder) (k v : Nat) : List Nat :=
  match bo with
  | .big => beBytes k v
  | .little => leBytes k v

/-- Big-endian value of a byte list (mirrors `binary.BigEndian.UintN`). -/
def beVal (l : List Nat) : Nat := l.foldl (fun a b => a * 256 + b) 0

/-- Little-endian value of a byte list (mirrors `binary.LittleEndian.UintN`). -/
def leVal (l : List Nat) : Nat := l.foldr (fun b a => a * 256 + b) 0

/-- Unsigned value of header bytes `l` under byte order `bo`. -/
def decVal (bo : ByteOrder) (l : List Nat) : Nat :=
  match bo with
  | .big => beVal l
  | .little => leVal l

/-- The Go conversion `int(...)` applied to the decoded unsigned header
value on a 64-bit host, as in `decodeHead` of `protocol.go`: for widths 1,
2 and 4 the value fits in `int` and is returned as is; for width 8 the
conversion `int(uint64 value)` reinterprets the top bit, going negative
when the value is at least `2^63`. -/
def decodeHead (p : SimpleProtocol) (head : List Nat) : Int :=
  if p.n = 8 ∧ 2 ^ 63 ≤ decVal p.bo head then
    (decVal p.bo head : Int) - 2 ^ 64
  else (decVal p.bo head : Int)

/-- The signed payload size `Read` computes from the first `n` bytes of the
stream (`size := p.decodeHead()` after `io.ReadFull(reader, p.head)`). -/
def decodedSize (p : SimpleProtocol) (stream : List Nat) : Int :=
  decodeHead p (stream.take p.n)

/-- Constructor `PacketN(n, byteOrder)`: `none` models the constructor's
`panic("unsupported packet head size")` for a width outside {1,2,4,8};
otherwise the protocol starts with `MaxPacketSize = 0` (unlimited). -/
def PacketN (n : Nat) (bo : ByteOrder) : Option SimpleProtocol :=
  if n = 1 ∨ n = 2 ∨ n = 4 ∨ n = 8 then some ⟨n, bo, 0⟩ else none

/-- Outcome of `Packet`: a produced buffer, a `writeBuffer` error, or a
runtime panic (`fault`). -/
inductive PacketOutcome where
  | ok : Buffer → PacketOutcome
  | err : PacketOutcome
  | fault : PacketOutcome
deriving DecidableEq, Repr

/-- The buffer pre-sizing phase of `SimpleProtocol.Packet`. The Go code
compares `cap(buffer.Data)` with the message's recommended size: if the
capacity is smaller it runs `make([]byte, p.n, size)` (a fresh zeroed
region of capacity `size` and logical length `p.n`, which panics when
`p.n > size`), otherwise it reslices `buffer.Data[:p.n]` (which panics
when `p.n > cap(buffer.Data)`); both panics are `fault` here. -/
def presize (p : SimpleProtocol) (b : Buffer) (hint : Nat) : PacketOutcome :=
  if b.cap < hint then
    if p.n ≤ hint then .ok ⟨List.replicate hint 0, p.n⟩ else .fault
  else
    if p.n ≤ b.cap then .ok ⟨b.store, p.n⟩ else .fault

/-- Method `SimpleProtocol.Packet`: pre-size the buffer from the message's
recommendation, then hand the buffer to the message's `WriteBuffer`. -/
def Packet (p : SimpleProtocol) (b : Buffer) (m : Message) : PacketOutcome :=
  match presize p b m.recommendBufferSize with
  | .ok b' =>
    match m.writeBuffer b' with
    | some b'' => .ok b''
    | none => .err
  | .err => .err
  | .fault => .fault

/-- Go's `append(buffer.Data, bytes...)`: reuse the backing store when the
capacity suffices, otherwise reallocate. Used to model a message that
appends its payload to the buffer. -/
def appendBytes (b : Buffer) (bytes : List Nat) : Buffer :=
  if b.len + bytes.length ≤ b.cap then
    ⟨b.store.take b.len ++ bytes ++ b.store.drop (b.len + bytes.length),
      b.len + bytes.length⟩
  else
    ⟨b.store.take b.len ++ bytes, b.len + bytes.length⟩

/-- The canonical message whose payload is `bytes`: it recommends exactly
`n + |bytes|` and appends `bytes` after the reserved header. -/
def appendMsg (n : Nat) (bytes : List Nat) : Message :=
  ⟨n + bytes.length, fun b => some (appendBytes b bytes)⟩

/-- Outcome of `Write`: the bytes handed to the writer, an error (nothing
emitted), or a runtime panic inside `encodeHead`. -/
inductive WriteOutcome where
  | ok : List Nat → WriteOutcome
  | err : Err → WriteOutcome
  | fault : WriteOutcome
deriving DecidableEq, Repr

/-- Method `SimpleProtocol.Write`. The Go guard is
`p.MaxPacketSize > 0 && len(buffer.Data) > p.MaxPacketSize`, comparing the
FULL buffer length (header included) against `MaxPacketSize` and returning
`PacketTooLargeError` before anything reaches the writer. Past the guard,
`encodeHead` stamps `len(buffer.Data) - p.n` (a `uintN` conversion, hence
the `mod 2^(8n)`) over the first `n` bytes; with fewer than `n` visible
bytes it indexes out of range (`fault`). The writer is a pure sink, so
success returns the emitted bytes. -/
def Write (p : SimpleProtocol) (b : Buffer) : WriteOutcome :=
  if p.MaxPacketSize > 0 ∧ p.MaxPacketSize < b.len then
    .err .packetTooLarge
  else if b.len < p.n then .fault
  else
    .ok (encBytes p.bo p.n ((b.len - p.n) % 2 ^ (8 * p.n)) ++ b.data.drop p.n)

/-- Outcome of `Read`: `ok` and `err` carry the final state of the caller's
buffer and the number of bytes consumed from the reader; `fault` models the
runtime panic of `buffer.Data[0:size]` with a negative `size`. -/
inductive ReadOutcome where
  | ok : Buffer → Nat → ReadOutcome
  | err : Err → Buffer → Nat → ReadOutcome
  | fault : ReadOutcome
deriving DecidableEq, Repr

/-- The resize step of `Read`: `make([]byte, size)` (fresh zeroed region)
when the capacity is insufficient, otherwise the reslice
`buffer.Data[0:size]` over the existing store. -/
def resize (b : Buffer) (sz : Nat) : Buffer :=
  if b.cap < sz then ⟨List.replicate sz 0, sz⟩ else ⟨b.store, sz⟩

/-- Method `SimpleProtocol.Read` over a pure byte stream. In order, as in
the Go source: read `n` header bytes fully (a short stream consumes what is
available and reports `unexpectedEOF`); decode the signed `size`; fail with
the `PacketTooLargeError` sentinel when `MaxPacketSize` is set and
exceeded, the buffer untouched; a negative `size` (possible for `n = 8`)
panics, since `cap(buffer.Data) < size` is false and `buffer.Data[0:size]`
is out of range; resize the buffer; return at once when `size` is zero;
otherwise read exactly `size` payload bytes fully into the buffer. -/
def Read (p : SimpleProtocol) (stream : List Nat) (b : Buffer) : ReadOutcome :=
  if stream.length < p.n then .err .unexpectedEOF b stream.length
  else if p.MaxPacketSize > 0 ∧ (p.MaxPacketSize : Int) < decodedSize p stream then
    .err .packetTooLarge b p.n
  else if decodedSize p stream < 0 then .fault
  else if (decodedSize p stream).toNat = 0 then
    .ok (resize b (decodedSize p stream).toNat) p.n
  else if stream.length < p.n + (decodedSize p stream).toNat then
    .err .unexpectedEOF (resize b (decodedSize p stream).toNat) stream.length
  else
    .ok ⟨(stream.drop p.n).take (decodedSize p stream).toNat ++
          (resize b (decodedSize p stream).toNat).store.drop
            (decodedSize p stream).toNat,
         (decodedSize p stream).toNat⟩
      (p.n + (decodedSize p stream).toNat)

/-- Serialize-and-emit pipeline: `Packet` into the buffer, then `Write`;
returns the bytes that reached the writer, `none` on any error or fault. -/
def packetThenWrite (p : SimpleProtocol) (b0 : Buffer) (m : Message) :
    Option (List Nat) :=
  match Packet p b0 m with
  | .ok b1 =>
    match Write p b1 with
    | .ok wire => some wire
    | _ => none
  | _ => none

/-- End-to-end pipeline of the round-trip property: serialize the payload
with `Packet` (via the canonical appending message) and `Write`, then
`Read` back from a stream holding exactly the emitted bytes into the buffer
`br`; the result is the payload the reader observes. -/
def roundTrip (p : SimpleProtocol) (payload : List Nat) (b0 br : Buffer) :
    Option (List Nat) :=
  match packetThenWrite p b0 (appendMsg p.n payload) with
  | some wire =>
    match Read p wire br with
    | .ok b2 _ => some b2.data
    | _ => none
  | none => none

/-! ### Header codec lemmas -/

theorem pow8succ (k : Nat) : 2 ^ (8 * (k + 1)) = 2 ^ (8 * k) * 256 := by
  rw [Nat.mul_succ, pow_add]
  norm_num

theorem byte_mod_step (v k : Nat) :
    v / 256 % 2 ^ (8 * k) * 256 + v % 256 = v % 2 ^ (8 * (k + 1)) := by
  rw [pow8succ, Nat.mul_comm (2 ^ (8 * k)) 256, Nat.mod_mul]
  ring

theorem beBytes_length (k v : Nat) : (beBytes k v).length = k := by
  induction k generalizing v with
  | zero => rfl
  | succ k ih => simp [beBytes, ih]

theorem leBytes_length (k v : Nat) : (leBytes k v).length = k := by
  induction k generalizing v with
  | zero => rfl
  | succ k ih => simp [leBytes, ih]

theorem encBytes_length (bo : ByteOrder) (k v : Nat) :
    (encBytes bo k v).length = k := by
  cases bo <;> simp [encBytes, beBytes_length, leBytes_length]

theorem beVal_foldl (k v acc : Nat) :
    List.foldl (fun a b => a * 256 + b) acc (beBytes k v)
      = acc * 2 ^ (8 * k) + v % 2 ^ (8 * k) := by
  induction k generalizing v acc with
  | zero => simp [beBytes, Nat.mod_one]
  | succ k ih =>
    rw [beBytes, List.foldl_append, ih]
    simp only [List.foldl]
    rw [← byte_mod_step v k, pow8succ]
    ring

theorem beVal_beBytes (k v : Nat) : beVal (beBytes k v) = v % 2 ^ (8 * k) := by
  simpa [beVal] using beVal_foldl k v 0

theorem leVal_leBytes (k v : Nat) : leVal (leBytes k v) = v % 2 ^ (8 * k) := by
  induction k generalizing v with
  | zero => simp [leBytes, leVal, Nat.mod_one]
  | succ k ih =>
    rw [leBytes]
    show leVal (leBytes k (v / 256)) * 256 + v % 256 = _
    rw [ih, byte_mod_step]

theorem decVal_encBytes (bo : ByteOrder) (k v : Nat) :
    decVal bo (encBytes bo k v) = v % 2 ^ (8 * k) := by
  cases bo <;> simp [decVal, encBytes, beVal_beBytes, leVal_leBytes]

theorem beBytes_zero (k : Nat) : beBytes k 0 = List.replicate k 0 := by
  induction k with
  | zero => rfl
  | succ k ih =>
    rw [beBytes, Nat.zero_div, ih, Nat.zero_mod, ← List.replicate_succ']

theorem leBytes_zero (k : Nat) : leBytes k 0 = List.replicate k 0 := by
  induction k with
  | zero => rfl
  | succ k ih =>
    rw [leBytes, Nat.zero_div, ih, Nat.zero_mod, List.replicate_succ]

theorem encBytes_zero (bo : ByteOrder) (k : Nat) :
    encBytes bo k 0 = List.replicate k 0 := by
  cases bo <;> simp [encBytes, beBytes_zero, leBytes_zero]

/-! ### Buffer, Packet and Write lemmas -/

theorem Buffer.data_length (b : Buffer) (h : b.len ≤ b.cap) :
    b.data.length = b.len := by
  rw [Buffer.data, List.length_take]
  exact Nat.min_eq_left h

theorem appendBytes_len (b : Buffer) (P : List Nat) :
    (appendBytes b P).len = b.len + P.length := by
  unfold appendBytes
  split <;> rfl

theorem appendBytes_data (b : Buffer) (P : List Nat) (h : b.len ≤ b.cap) :
    (appendBytes b P).data = b.data ++ P := by
  have h' : b.len ≤ b.store.length := h
  have hl : (b.store.take b.len ++ P).length = b.len + P.length := by
    rw [List.length_append, List.length_take]
    omega
  unfold appendBytes
  split
  · show (b.store.take b.len ++ P ++ _).take (b.len + P.length) = _
    rw [List.take_left' hl, Buffer.data]
  · show (b.store.take b.len ++ P).take (b.len + P.length) = _
    rw [← hl, List.take_length, Buffer.data]

theorem presize_ok (p : SimpleProtocol) (b : Buffer) (hint : Nat)
    (hn : p.n ≤ hint) :
    ∃ b', presize p b hint = .ok b' ∧ b'.len = p.n ∧ p.n ≤ b'.cap := by
  by_cases h1 : b.cap < hint
  · refine ⟨⟨List.replicate hint 0, p.n⟩, ?_, rfl, ?_⟩
    · unfold presize
      rw [if_pos h1, if_pos hn]
    · show p.n ≤ (List.replicate hint 0).length
      rw [List.length_replicate]
      exact hn
  · have hc : hint ≤ b.cap := Nat.le_of_not_lt h1
    refine ⟨⟨b.store, p.n⟩, ?_, rfl, le_trans hn hc⟩
    unfold presize
    rw [if_neg h1, if_pos (le_trans hn hc)]

theorem Packet_appendMsg (p : SimpleProtocol) (b0 : Buffer) (P : List Nat) :
    ∃ b1, Packet p b0 (appendMsg p.n P) = .ok b1 ∧
      b1.len = p.n + P.length ∧ b1.data.drop p.n = P := by
  obtain ⟨b', hpre, hlen, hcap⟩ :=
    presize_ok p b0 (p.n + P.length) (Nat.le_add_right _ _)
  have hdl : b'.data.length = p.n := by
    rw [Buffer.data_length b' (hlen ▸ hcap), hlen]
  refine ⟨appendBytes b' P, ?_, ?_, ?_⟩
  · simp only [Packet, appendMsg, hpre]
  · rw [appendBytes_len, hlen]
  · rw [appendBytes_data b' P (hlen ▸ hcap), List.drop_left' hdl]

theorem Write_ok (p : SimpleProtocol) (b : Buffer)
    (hmax : p.MaxPacketSize = 0 ∨ b.len ≤ p.MaxPacketSize) (hn : p.n ≤ b.len) :
    Write p b =
      .ok (encBytes p.bo p.n ((b.len - p.n) % 2 ^ (8 * p.n)) ++
        b.data.drop p.n) := by
  unfold Write
  rw [if_neg, if_neg (Nat.not_lt.mpr hn)]
  rintro ⟨h1, h2⟩
  rcases hmax with h | h
  · rw [h] at h1
    exact absurd h1 (lt_irrefl 0)
  · exact absurd h2 (Nat.not_lt.mpr h)

/-! ### Read lemmas -/

theorem Read_wire (p : SimpleProtocol) (P : List Nat) (br : Buffer)
    (hlt : P.length < 2 ^ (8 * p.n))
    (h63 : p.n = 8 → P.length < 2 ^ 63)
    (hmax : p.MaxPacketSize = 0 ∨ P.length ≤ p.MaxPacketSize) :
    ∃ b2 c, Read p (encBytes p.bo p.n P.length ++ P) br = .ok b2 c ∧
      b2.data = P ∧ b2.len = P.length := by
  set stream := encBytes p.bo p.n P.length ++ P with hstream
  have hslen : stream.length = p.n + P.length := by
    rw [hstream, List.length_append, encBytes_length]
  have htake : stream.take p.n = encBytes p.bo p.n P.length :=
    List.take_left' (encBytes_length p.bo p.n P.length)
  have hdrop : stream.drop p.n = P :=
    List.drop_left' (encBytes_length p.bo p.n P.length)
  have hdv : decVal p.bo (stream.take p.n) = P.length := by
    rw [htake, decVal_encBytes, Nat.mod_eq_of_lt hlt]
  have hsize : decodedSize p stream = (P.length : Int) := by
    unfold decodedSize decodeHead
    rw [hdv]
    rw [if_neg]
    rintro ⟨h8, hge⟩
    exact absurd (h63 h8) (Nat.not_lt.mpr hge)
  have hc1 : ¬ stream.length < p.n := by
    rw [hslen]
    exact Nat.not_lt.mpr (Nat.le_add_right _ _)
  have hc2 : ¬ (p.MaxPacketSize > 0 ∧
      (p.MaxPacketSize : Int) < decodedSize p stream) := by
    rintro ⟨h1, h2⟩
    rw [hsize] at h2
    rcases hmax with h | h
    · rw [h] at h1
      exact absurd h1 (lt_irrefl 0)
    · exact absurd h2 (not_lt.mpr (by exact_mod_cast h))
  have hc3 : ¬ decodedSize p stream < 0 := by
    rw [hsize]
    exact not_lt.mpr (Int.natCast_nonneg _)
  have htn : (decodedSize p stream).toNat = P.length := by
    rw [hsize]
    exact Int.toNat_natCast _
  unfold Read
  rw [if_neg hc1, if_neg hc2, if_neg hc3, htn]
  by_cases hP : P.length = 0
  · have hnil : P = [] := List.length_eq_zero.mp hP
    rw [if_pos hP]
    refine ⟨resize br P.length, p.n, rfl, ?_, ?_⟩
    · simp [resize, hP, hnil, Buffer.data]
    · simp [resize, hP]
  · rw [if_neg hP, if_neg (by rw [hslen]; exact lt_irrefl _)]
    refine ⟨_, _, rfl, ?_, rfl⟩
    show ((stream.drop p.n).take P.length ++ _).take P.length = P
    rw [hdrop, List.take_length, List.take_left]

theorem resize_len (b : Buffer) (sz : Nat) : (resize b sz).len = sz := by
  unfold resize
  split <;> rfl

/-! ### Claim theorems -/

/-- C1 counterexample: with n = 1, big-endian and MaxPacketSize = 2, the
payload [65, 66] satisfies every hypothesis of the claim as stated
(|P| = 2 ≤ 2^8 − 1 and |P| ≤ maxPacketSize), yet the round trip does not
succeed: Write's guard compares the full buffer length 3 (header included)
against the maximum, so it fails with PacketTooLarge and nothing reaches
the wire. -/
theorem roundTrip_claim_counterexample :
    [65, 66].length ≤ 2 ^ (8 * 1) - 1 ∧ [65, 66].length ≤ 2 ∧
    roundTrip ⟨1, ByteOrder.big, 2⟩ [65, 66] Buffer.empty Buffer.empty =
      none := by decide

/-- C1 (amended): for every n ∈ {1,2,4,8}, every byte order, every payload
P with |P| ≤ 2^(8n)−1 — and additionally |P| < 2^63 when n = 8, since the
decoder reinterprets the length as a signed 64-bit int — and, when a
maximum is set, n + |P| ≤ maxPacketSize (the Write guard counts the
header): serializing a Message that appends P via Packet then Write and
reading the emitted bytes back via Read yields a buffer whose contents
equal P byte-for-byte. -/
theorem roundTrip_ok (p : SimpleProtocol) (payload : List Nat)
    (b0 br : Buffer)
    (_hn : p.n = 1 ∨ p.n = 2 ∨ p.n = 4 ∨ p.n = 8)
    (hlen : payload.length ≤ 2 ^ (8 * p.n) - 1)
    (h63 : p.n = 8 → payload.length < 2 ^ 63)
    (hmax : p.MaxPacketSize = 0 ∨ p.n + payload.length ≤ p.MaxPacketSize) :
    roundTrip p payload b0 br = some payload := by
  have hpow : 0 < 2 ^ (8 * p.n) := pow_pos (by norm_num) _
  have hlt : payload.length < 2 ^ (8 * p.n) :=
    lt_of_le_of_lt hlen (Nat.sub_lt hpow one_pos)
  obtain ⟨b1, hpk, hb1len, hb1drop⟩ := Packet_appendMsg p b0 payload
  have hwmax : p.MaxPacketSize = 0 ∨ b1.len ≤ p.MaxPacketSize := by
    rcases hmax with h | h
    · exact Or.inl h
    · exact Or.inr (by rw [hb1len]; exact h)
  have hwn : p.n ≤ b1.len := by
    rw [hb1len]
    exact Nat.le_add_right _ _
  have hw : Write p b1 =
      .ok (encBytes p.bo p.n payload.length ++ payload) := by
    rw [Write_ok p b1 hwmax hwn, hb1len, hb1drop, Nat.add_sub_cancel_left,
      Nat.mod_eq_of_lt hlt]
  have hrmax : p.MaxPacketSize = 0 ∨ payload.length ≤ p.MaxPacketSize := by
    rcases hmax with h | h
    · exact Or.inl h
    · exact Or.inr (le_trans (Nat.le_add_left _ _) h)
  obtain ⟨b2, c, hr, hdata, _⟩ := Read_wire p payload br hlt h63 hrmax
  simp only [roundTrip, packetThenWrite, hpk, hw, hr, hdata]

/-- Witness for the amended C1 theorem: n = 2, big-endian, no maximum,
payload [1, 2, 3], a reused send buffer and a fresh read buffer. -/
theorem roundTrip_ok_witness :
    roundTrip ⟨2, ByteOrder.big, 0⟩ [1, 2, 3] ⟨[9, 9], 1⟩ Buffer.empty =
      some [1, 2, 3] :=
  roundTrip_ok ⟨2, ByteOrder.big, 0⟩ [1, 2, 3] ⟨[9, 9], 1⟩ Buffer.empty
    (by decide) (by decide) (by decide) (by decide)

/-- C2 counterexample: with n = 2 and MaxPacketSize = 4, a buffer of total
length 6 has payload length 6 − 2 = 4 ≤ 4, yet Write fails with the
packet-too-large sentinel: the code's guard compares the full buffer
length, header included, not the payload length. -/
theorem write_guard_counterexample :
    Buffer.len ⟨[0, 0, 1, 2, 3, 4], 6⟩ - 2 ≤ 4 ∧
    Write ⟨2, ByteOrder.big, 4⟩ ⟨[0, 0, 1, 2, 3, 4], 6⟩ =
      WriteOutcome.err Err.packetTooLarge := by decide

/-- C2 (amended): for every buffer and every configured MaxPacketSize
M > 0, Write fails with PacketTooLarge — emitting zero bytes to the
writer — exactly when the TOTAL buffer length len(buffer), header
included, exceeds M; when len(buffer) ≤ M, Write does not fail with
PacketTooLarge. -/
theorem write_tooLarge_iff (p : SimpleProtocol) (b : Buffer)
    (hM : 0 < p.MaxPacketSize) :
    Write p b = WriteOutcome.err Err.packetTooLarge ↔
      p.MaxPacketSize < b.len := by
  unfold Write
  by_cases h : p.MaxPacketSize < b.len
  · rw [if_pos ⟨hM, h⟩]
    exact ⟨fun _ => h, fun _ => rfl⟩
  · rw [if_neg fun hc => h hc.2]
    constructor
    · intro hcontra
      split at hcontra <;> exact WriteOutcome.noConfusion hcontra
    · intro hcontra
      exact absurd hcontra h

/-- Witness for the amended C2 theorem: n = 2, MaxPacketSize = 4, total
buffer length 7 > 4, so Write fails with the sentinel. -/
theorem write_tooLarge_iff_witness :
    Write ⟨2, ByteOrder.big, 4⟩ ⟨[1, 1, 1, 1, 1, 1, 1], 7⟩ =
      WriteOutcome.err Err.packetTooLarge :=
  (write_tooLarge_iff ⟨2, ByteOrder.big, 4⟩ ⟨[1, 1, 1, 1, 1, 1, 1], 7⟩
    (by decide)).mpr (by decide)

/-- C3 (code bug): the spec promises that a recommendBufferSize hint
smaller than n is advisory and that Packet still reserves the n header
bytes without a runtime fault, but the code panics: with n = 2, a hint of
0 and an empty caller buffer, the reslice `buffer.Data[:p.n]` runs past the
capacity 0 — a runtime fault, before the message's writeBuffer is ever
invoked. The second conjunct pins the fault to the pre-sizing phase. -/
theorem packet_small_hint_fault :
    Packet ⟨2, ByteOrder.big, 0⟩ Buffer.empty ⟨0, fun b => some b⟩ =
      PacketOutcome.fault ∧
    presize ⟨2, ByteOrder.big, 0⟩ Buffer.empty 0 = PacketOutcome.fault :=
  ⟨rfl, rfl⟩

/-- C4 (code bug): the spec requires the decoded length to be treated as
an unsigned, non-negative integer with no runtime fault from its value,
but for n = 8 the code's int(uint64) conversion makes a header with the
top bit set (eight 0xFF bytes) decode to the negative size −1, and Read
then faults at the buffer resize instead of returning a clean error. -/
theorem read_negative_size_fault :
    Read ⟨8, ByteOrder.big, 0⟩ (List.replicate 8 255) Buffer.empty =
      ReadOutcome.fault ∧
    decodedSize ⟨8, ByteOrder.big, 0⟩ (List.replicate 8 255) = -1 := by
  decide

/-- C5 (confirmed): whenever Read returns successfully, the buffer's
logical length equals the payload length decoded from the header, its
contents are exactly the payload bytes that followed the n header bytes on
the stream — none of the header bytes is present in the payload region —
and exactly header-plus-payload bytes were consumed. -/
theorem read_ok_payload (p : SimpleProtocol) (stream : List Nat)
    (b b' : Buffer) (c : Nat) (h : Read p stream b = ReadOutcome.ok b' c) :
    b'.len = (decodedSize p stream).toNat ∧
    b'.data = (stream.drop p.n).take b'.len ∧
    b'.data.length = b'.len ∧
    c = p.n + b'.len := by
  unfold Read at h
  split at h
  · exact ReadOutcome.noConfusion h
  · split at h
    · exact ReadOutcome.noConfusion h
    · split at h
      · exact ReadOutcome.noConfusion h
      · split at h
        next h4 =>
          injection h with hb hc
          subst hb
          subst hc
          refine ⟨resize_len b _, ?_, ?_, ?_⟩
          · rw [resize_len, h4]
            simp [resize, Buffer.data]
          · rw [resize_len, h4]
            simp [resize, Buffer.data]
          · rw [resize_len, h4, Nat.add_zero]
        next h4 =>
          split at h
          · exact ReadOutcome.noConfusion h
          next h5 =>
            injection h with hb hc
            subst hb
            subst hc
            have hA : ((stream.drop p.n).take
                (decodedSize p stream).toNat).length =
                (decodedSize p stream).toNat := by
              rw [List.length_take, List.length_drop]
              omega
            refine ⟨rfl, ?_, ?_, rfl⟩
            · simp only [Buffer.data]
              rw [List.take_left' hA]
            · simp only [Buffer.data]
              rw [List.take_left' hA]
              exact hA

/-- Witness for the C5 theorem: n = 1, little-endian, stream
[2, 10, 20, 30]; Read succeeds with buffer [10, 20], length 2, consuming
3 bytes. -/
theorem read_ok_payload_witness :
    Buffer.len ⟨[10, 20], 2⟩ =
      (decodedSize ⟨1, ByteOrder.little, 0⟩ [2, 10, 20, 30]).toNat ∧
    Buffer.data ⟨[10, 20], 2⟩ =
      ([2, 10, 20, 30].drop 1).take (Buffer.len ⟨[10, 20], 2⟩) ∧
    (Buffer.data ⟨[10, 20], 2⟩).length = Buffer.len ⟨[10, 20], 2⟩ ∧
    3 = 1 + Buffer.len ⟨[10, 20], 2⟩ :=
  read_ok_payload ⟨1, ByteOrder.little, 0⟩ [2, 10, 20, 30] Buffer.empty
    ⟨[10, 20], 2⟩ 3 (by decide)

/-- C6 (confirmed): with MaxPacketSize = M > 0 and a stream whose first n
bytes decode to a size strictly greater than M, Read fails with the
PacketTooLarge sentinel, leaves the caller's buffer exactly as it was, and
has consumed exactly the n header bytes and no payload byte; the very same
sentinel is the one Write's guard returns. -/
theorem read_guard_tooLarge (p : SimpleProtocol) (stream : List Nat)
    (b : Buffer) (hM : 0 < p.MaxPacketSize) (hs : p.n ≤ stream.length)
    (hbig : (p.MaxPacketSize : Int) < decodedSize p stream) :
    Read p stream b = ReadOutcome.err Err.packetTooLarge b p.n ∧
    ∀ b2 : Buffer, p.MaxPacketSize < b2.len →
      Write p b2 = WriteOutcome.err Err.packetTooLarge := by
  constructor
  · unfold Read
    rw [if_neg (Nat.not_lt.mpr hs), if_pos ⟨hM, hbig⟩]
  · intro b2 h2
    unfold Write
    rw [if_pos ⟨hM, h2⟩]

/-- Witness for the C6 theorem: n = 1, MaxPacketSize = 2, header byte 5
declares a 5-byte payload; Read fails having consumed 1 byte, with the
buffer untouched; Write fails on a 3-byte buffer with the same sentinel. -/
theorem read_guard_tooLarge_witness :
    Read ⟨1, ByteOrder.big, 2⟩ [5, 1, 2, 3, 4, 5] ⟨[7], 1⟩ =
      ReadOutcome.err Err.packetTooLarge ⟨[7], 1⟩ 1 ∧
    Write ⟨1, ByteOrder.big, 2⟩ ⟨[1, 1, 1], 3⟩ =
      WriteOutcome.err Err.packetTooLarge := by
  have h := read_guard_tooLarge ⟨1, ByteOrder.big, 2⟩ [5, 1, 2, 3, 4, 5]
    ⟨[7], 1⟩ (by decide) (by decide) (by decide)
  exact ⟨h.1, h.2 ⟨[1, 1, 1], 3⟩ (by decide)⟩

/-- C7 (confirmed): with the protocol as constructed by PacketN (so the
maximum defaults to 0), a message that appends zero bytes produces, after
Packet then Write, exactly n bytes on the wire, all zero; conversely, Read
on a stream whose n header bytes decode to 0 returns success with a
zero-length buffer, consuming exactly the n header bytes and nothing
more. -/
theorem empty_packet (n : Nat) (bo : ByteOrder) (p : SimpleProtocol)
    (hp : PacketN n bo = some p) (b0 br : Buffer) (stream : List Nat)
    (hs : n ≤ stream.length) (hdec : decodedSize p stream = 0) :
    packetThenWrite p b0 (appendMsg n []) = some (List.replicate n 0) ∧
    Read p stream br = ReadOutcome.ok ⟨br.store, 0⟩ n := by
  unfold PacketN at hp
  split at hp
  case isFalse => exact Option.noConfusion hp
  case isTrue =>
    injection hp with hp'
    subst hp'
    constructor
    · obtain ⟨b1, hpk, hb1len, hb1drop⟩ :=
        Packet_appendMsg ⟨n, bo, 0⟩ b0 []
      have hwn : n ≤ b1.len := by
        rw [hb1len]
        simp
      have hw : Write ⟨n, bo, 0⟩ b1 = .ok (List.replicate n 0) := by
        rw [Write_ok ⟨n, bo, 0⟩ b1 (Or.inl rfl) hwn, hb1len, hb1drop]
        simp [encBytes_zero]
      simp only [packetThenWrite, hpk, hw]
    · unfold Read
      rw [if_neg (Nat.not_lt.mpr hs),
        if_neg (by rintro ⟨hcon, _⟩; exact absurd hcon (lt_irrefl 0)),
        if_neg (by rw [hdec]; exact lt_irrefl 0),
        if_pos (by rw [hdec]; rfl), hdec]
      simp [resize]

/-- Witness for the C7 theorem at n = 2, big-endian: the empty message
yields the wire [0, 0], and a stream with header bytes [0, 0] is read as
an empty buffer with 2 bytes consumed. -/
theorem empty_packet_witness :
    packetThenWrite ⟨2, ByteOrder.big, 0⟩ Buffer.empty (appendMsg 2 []) =
      some (List.replicate 2 0) ∧
    Read ⟨2, ByteOrder.big, 0⟩ [0, 0, 7] ⟨[5], 1⟩ =
      ReadOutcome.ok ⟨[5], 0⟩ 2 :=
  empty_packet 2 ByteOrder.big ⟨2, ByteOrder.big, 0⟩ (by decide)
    Buffer.empty ⟨[5], 1⟩ [0, 0, 7] (by decide) (by decide)

/-- C8 (confirmed): PacketN succeeds exactly for n ∈ {1,2,4,8}; any other
width fails at construction time (the constructor's fatal
"unsupported packet head size" panic, modelled as `none`). -/
theorem packetN_width (n : Nat) (bo : ByteOrder) :
    (PacketN n bo).isSome ↔ (n = 1 ∨ n = 2 ∨ n = 4 ∨ n = 8) := by
  unfold PacketN
  split
  next h => simp [h]
  next h => simp [h]

/-- C9 (confirmed): when Read errors before the buffer is resized — the
stream ends inside the n header bytes, or the max-size guard fires right
after the header — the caller's buffer is returned exactly as it was, the
same store and the same logical length, hence the same contents. -/
theorem read_early_error_frame (p : SimpleProtocol) (stream : List Nat)
    (b : Buffer) :
    (stream.length < p.n →
      Read p stream b = ReadOutcome.err Err.unexpectedEOF b stream.length) ∧
    (p.n ≤ stream.length → 0 < p.MaxPacketSize →
      (p.MaxPacketSize : Int) < decodedSize p stream →
      Read p stream b = ReadOutcome.err Err.packetTooLarge b p.n) := by
  constructor
  · intro h
    unfold Read
    rw [if_pos h]
  · intro hs hM hbig
    unfold Read
    rw [if_neg (Nat.not_lt.mpr hs), if_pos ⟨hM, hbig⟩]

/-- Witness for the C9 theorem: a 1-byte stream under n = 2 fails with
end-of-input and hands back the buffer unchanged; a header declaring 2
under MaxPacketSize = 1 fails with PacketTooLarge, buffer unchanged. -/
theorem read_early_error_frame_witness :
    Read ⟨2, ByteOrder.big, 0⟩ [9] ⟨[3, 4], 2⟩ =
      ReadOutcome.err Err.unexpectedEOF ⟨[3, 4], 2⟩ 1 ∧
    Read ⟨2, ByteOrder.big, 1⟩ [0, 2, 5, 6] ⟨[3, 4], 2⟩ =
      ReadOutcome.err Err.packetTooLarge ⟨[3, 4], 2⟩ 2 :=
  ⟨(read_early_error_frame ⟨2, ByteOrder.big, 0⟩ [9] ⟨[3, 4], 2⟩).1
      (by decide),
   (read_early_error_frame ⟨2, ByteOrder.big, 1⟩ [0, 2, 5, 6]
      ⟨[3, 4], 2⟩).2 (by decide) (by decide) (by decide)⟩

/-- C10 (confirmed): with MaxPacketSize = 0 the guard in Write is skipped
and no representability check is performed: for every buffer whose payload
length len − n reaches 2^(8n), Write succeeds (the writer being a pure
sink) and the n header bytes carry (len − n) mod 2^(8n), a silently
wrapped value different from the true payload length. -/
theorem write_unlimited_wraps (p : SimpleProtocol) (b : Buffer)
    (hM : p.MaxPacketSize = 0)
    (_hn : p.n = 1 ∨ p.n = 2 ∨ p.n = 4 ∨ p.n = 8)
    (hge : 2 ^ (8 * p.n) ≤ b.len - p.n) (hnb : p.n ≤ b.len) :
    ∃ wire, Write p b = WriteOutcome.ok wire ∧
      wire.take p.n = encBytes p.bo p.n ((b.len - p.n) % 2 ^ (8 * p.n)) ∧
      decVal p.bo (wire.take p.n) = (b.len - p.n) % 2 ^ (8 * p.n) ∧
      (b.len - p.n) % 2 ^ (8 * p.n) ≠ b.len - p.n := by
  have hpow : 0 < 2 ^ (8 * p.n) := pow_pos (by norm_num) _
  have hw := Write_ok p b (Or.inl hM) hnb
  refine ⟨_, hw, ?_, ?_, ?_⟩
  · exact List.take_left' (encBytes_length _ _ _)
  · rw [List.take_left' (encBytes_length _ _ _), decVal_encBytes,
      Nat.mod_eq_of_lt (Nat.mod_lt _ hpow)]
  · intro hcontra
    have hlt : (b.len - p.n) % 2 ^ (8 * p.n) < 2 ^ (8 * p.n) :=
      Nat.mod_lt _ hpow
    rw [hcontra] at hlt
    exact absurd hge (Nat.not_le.mpr hlt)

/-- Witness for the C10 theorem: n = 1, unlimited, a 257-byte buffer whose
payload length 256 wraps to the header byte 0. -/
theorem write_unlimited_wraps_witness :
    ∃ wire, Write ⟨1, ByteOrder.big, 0⟩ ⟨List.replicate 257 7, 257⟩ =
        WriteOutcome.ok wire ∧
      wire.take 1 = encBytes ByteOrder.big 1 ((257 - 1) % 2 ^ (8 * 1)) ∧
      decVal ByteOrder.big (wire.take 1) = (257 - 1) % 2 ^ (8 * 1) ∧
      (257 - 1) % 2 ^ (8 * 1) ≠ 257 - 1 :=
  write_unlimited_wraps ⟨1, ByteOrder.big, 0⟩ ⟨List.replicate 257 7, 257⟩
    rfl (by decide) (by decide) (by decide)

end Link
